import Mathlib

/-!
Shallow embedding of `hay-kot/gkit`, package `httpclient`
(`src/httpclient/httpclient.go`), together with proofs of the spec's
claims about it.

Go values of type `(*T, error)` are modelled as `Option T × Option Err`
(a `nil` pointer is `none`, a `nil` error is `none`).  A middleware
`func(*http.Request) (*http.Request, error)` is modelled as a function
`Req → Req × Option Err`; the Go code inspects only the error component
before reusing the request component, which the model mirrors.  The
request, response and error types are opaque type parameters wherever
the Go code treats them opaquely.
-/

namespace Httpclient

/-- Go `type ClientMiddleware = func(*http.Request) (*http.Request, error)`. -/
def MW (Req Err : Type) : Type := Req → Req × Option Err

/-- Go `type Client struct { client *http.Client; baseURL string; mw []ClientMiddleware }`.
The `*http.Client` transport handle is modelled by the one operation the
code uses on it, `client.Do : Req → (Option Resp × Option Err)`. -/
structure Client (Req Resp Err : Type) where
  client : Req → Option Resp × Option Err
  baseURL : String
  mw : List (MW Req Err)

/-- Go `New(client, base)`: a client with the given transport and base URL
and a nil (empty) middleware list. -/
def New {Req Resp Err : Type} (client : Req → Option Resp × Option Err)
    (base : String) : Client Req Resp Err :=
  { client := client, baseURL := base, mw := [] }

/-- Go `(c *Client) Use(mws ...ClientMiddleware)`: appends to the
client-level middleware list.  The Go method mutates the receiver; in the
embedding it returns the updated client state. -/
def Client.Use {Req Resp Err : Type} (c : Client Req Resp Err)
    (mws : List (MW Req Err)) : Client Req Resp Err :=
  { c with mw := c.mw ++ mws }

/-- One `for _, mw := range mws { req, err = mw(req); if err != nil { return nil, err } }`
loop of `Client.Do`: applies the middlewares in order to the request,
stopping at the first error (Go then returns `(nil, err)`, which the
caller of this helper produces from the `.error` case). -/
def runMWs {Req Err : Type} (mws : List (MW Req Err)) (req : Req) :
    Except Err Req :=
  match mws with
  | [] => .ok req
  | mw :: rest =>
      match mw req with
      | (_, some err) => .error err
      | (r, none) => runMWs rest r

/-- Go `(c *Client) Do(req, rmw)`: runs the client-level middleware loop,
then the call-supplied middleware loop, then hands the surviving request
to the transport, returning whatever the failing step or the transport
produced. -/
def Client.Do {Req Resp Err : Type} (c : Client Req Resp Err) (req : Req)
    (rmw : List (MW Req Err)) : Option Resp × Option Err :=
  match runMWs c.mw req with
  | .error err => (none, some err)
  | .ok r =>
      match runMWs rmw r with
      | .error err => (none, some err)
      | .ok r2 => c.client r2

/-- The state-passing form of `Do`: the Go method has a pointer receiver,
so this variant makes the receiver state after the call explicit.  The
translation threads the receiver through both loops exactly as the Go
body keeps `c` in scope; no statement of the body assigns to `c` or its
fields, only the local `req` is rebound. -/
def doLoopS {Req Resp Err : Type} (c : Client Req Resp Err)
    (mws : List (MW Req Err)) (req : Req) :
    Client Req Resp Err × Except Err Req :=
  match mws with
  | [] => (c, .ok req)
  | mw :: rest =>
      match mw req with
      | (_, some err) => (c, .error err)
      | (r, none) => doLoopS c rest r

/-- `Do` with the receiver state after the call made explicit. -/
def Client.DoS {Req Resp Err : Type} (c : Client Req Resp Err) (req : Req)
    (rmw : List (MW Req Err)) :
    Client Req Resp Err × (Option Resp × Option Err) :=
  match doLoopS c c.mw req with
  | (c1, .error err) => (c1, (none, some err))
  | (c1, .ok r) =>
      match doLoopS c1 rmw r with
      | (c2, .error err) => (c2, (none, some err))
      | (c2, .ok r2) => (c2, c2.client r2)

/-! ### Path resolution

`Client.Path` calls `strings.HasPrefix`, `strings.TrimRight`,
`strings.TrimLeft` and `path.Join` from the Go standard library; those
are embedded here at the character-list level with the semantics of
their Go sources (`path.Join` cleans its result with `path.Clean`, whose
lexical algorithm is reproduced below). -/

/-- Go `strings.HasPrefix(s, pre)`: `s` begins with the literal
characters of `pre`. -/
def strHasPre (s pre : String) : Bool :=
  pre.data.isPrefixOf s.data

/-- Go `strings.TrimRight(s, "/")` at the cutset the source passes:
removes every trailing `/` character. -/
def trimRightSlashes (s : String) : String :=
  String.mk ((s.data.reverse.dropWhile (fun c => c = '/')).reverse)

/-- Go `strings.TrimLeft(s, "/")` at the cutset the source passes:
removes every leading `/` character. -/
def trimLeftSlashes (s : String) : String :=
  String.mk (s.data.dropWhile (fun c => c = '/'))

/-- Go `strings.Split(s, "/")` on the character list: the `/`-separated
components, keeping empty ones. -/
def splitSlash : List Char → List (List Char)
  | [] => [[]]
  | c :: rest =>
      let r := splitSlash rest
      if c = '/' then [] :: r
      else
        match r with
        | [] => [[c]]
        | h :: t => (c :: h) :: t

/-- Rejoin components with single `/` separators. -/
def joinSlash : List (List Char) → List Char
  | [] => []
  | [x] => x
  | x :: rest => x ++ '/' :: joinSlash rest

/-- One element of Go `path.Clean`'s scan, on a stack of kept components
(most recent first): empty and `.` components are dropped, `..` pops the
last kept component when one can be popped (when the path is rooted a
`..` at the top is otherwise dropped, when unrooted it is kept), and any
other component is kept. -/
def cleanStep (rooted : Bool) (stack : List (List Char)) (comp : List Char) :
    List (List Char) :=
  if comp = [] ∨ comp = ['.'] then stack
  else if comp = ['.', '.'] then
    match stack with
    | [] => if rooted then [] else [['.', '.']]
    | top :: rest => if top = ['.', '.'] then comp :: stack else rest
  else comp :: stack

/-- Go `path.Clean(p)` for non-empty `p`, on the character list:
process the `/`-separated components left to right with `cleanStep`,
then rejoin, restoring the leading `/` of a rooted path and returning
`.` for an empty unrooted result. -/
def cleanList (rooted : Bool) (l : List Char) : List Char :=
  let core := joinSlash (((splitSlash l).foldl (cleanStep rooted) []).reverse)
  if rooted then '/' :: core
  else if core = [] then ['.'] else core

/-- Go `path.Clean(p)`: the empty path cleans to `.`; otherwise the
lexical cleanup above (multiple slashes collapse to one, `.` and
resolvable `..` components are eliminated). -/
def goClean (p : String) : String :=
  if p = "" then "."
  else
    let rooted :=
      match p.data with
      | '/' :: _ => true
      | _ => false
    String.mk (cleanList rooted p.data)

/-- Go `path.Join(a, b)` for the two-argument call the source makes:
both elements empty gives `""`; otherwise the non-empty elements are
joined with `/` and the result is passed through `path.Clean`. -/
def goJoin (a b : String) : String :=
  if a = "" && b = "" then ""
  else if a = "" then goClean b
  else goClean (a ++ "/" ++ b)

/-- Go `(c *Client) Path(url)`: a path starting with the literal
characters `http` is returned unchanged; otherwise the base URL with
trailing slashes trimmed, alone for an empty path, else `path.Join`ed
with the path stripped of leading slashes. -/
def Client.Path {Req Resp Err : Type} (c : Client Req Resp Err)
    (url : String) : String :=
  if strHasPre url "http" then url
  else
    let base := trimRightSlashes c.baseURL
    if url = "" then base
    else goJoin base (trimLeftSlashes url)

/-- Go `(c *Client) Pathf(url, v...)`: formats the template with
`fmt.Sprintf` and delegates to `Path`.  `fmt.Sprintf` is Go standard
library, opaque to this package, so it is a parameter here. -/
def Client.Pathf {Req Resp Err A : Type}
    (sprintf : String → List A → String) (c : Client Req Resp Err)
    (url : String) (v : List A) : String :=
  c.Path (sprintf url v)

/-! ### Verb helpers (Get/Post/Put/Delete and their Ctx variants) -/

/-- The HTTP methods the verb helpers pass to request construction. -/
inductive Method
  | get
  | post
  | put
  | delete
deriving DecidableEq

/-- Go `*http.Request` to the extent the verb helpers build one: method,
URL, the body stream (`nil` for GET/DELETE) and the optional request
context (`none` stands for the `context.Background()` that plain
`http.NewRequest` binds). -/
structure Request (Ctx Body : Type) where
  ctx : Option Ctx
  method : Method
  url : String
  body : Option Body

/-- Modelled from the spec: `http.NewRequest` / `http.NewRequestWithContext`
(Go standard library, not part of this repository).  Per the spec,
construction fails on e.g. a malformed URL and otherwise yields the
request; malformed is modelled as the URL containing an ASCII control
character, the concrete case `net/url` rejects. -/
def mkRequest {Ctx Body : Type} (ctx : Option Ctx) (m : Method)
    (url : String) (body : Option Body) :
    Except String (Request Ctx Body) :=
  if url.data.any (fun c => c.toNat < 32) then
    .error "net/url: invalid control character in URL"
  else .ok { ctx := ctx, method := m, url := url, body := body }

/-- Go `(c *Client) Get(url, mw...)`. -/
def Client.Get {Ctx Body Resp : Type}
    (c : Client (Request Ctx Body) Resp String) (url : String)
    (mw : List (MW (Request Ctx Body) String)) :
    Option Resp × Option String :=
  match @mkRequest Ctx Body none .get url none with
  | .error e => (none, some e)
  | .ok req => c.Do req mw

/-- Go `(c *Client) GetCtx(ctx, url, mw...)`. -/
def Client.GetCtx {Ctx Body Resp : Type}
    (c : Client (Request Ctx Body) Resp String) (ctx : Ctx) (url : String)
    (mw : List (MW (Request Ctx Body) String)) :
    Option Resp × Option String :=
  match @mkRequest Ctx Body (some ctx) .get url none with
  | .error e => (none, some e)
  | .ok req => c.Do req mw

/-- Go `(c *Client) Post(url, payload, mw...)`. -/
def Client.Post {Ctx Body Resp : Type}
    (c : Client (Request Ctx Body) Resp String) (url : String)
    (payload : Option Body) (mw : List (MW (Request Ctx Body) String)) :
    Option Resp × Option String :=
  match @mkRequest Ctx Body none .post url payload with
  | .error e => (none, some e)
  | .ok req => c.Do req mw

/-- Go `(c *Client) PostCtx(ctx, url, payload, mw...)`. -/
def Client.PostCtx {Ctx Body Resp : Type}
    (c : Client (Request Ctx Body) Resp String) (ctx : Ctx) (url : String)
    (payload : Option Body) (mw : List (MW (Request Ctx Body) String)) :
    Option Resp × Option String :=
  match mkRequest (some ctx) .post url payload with
  | .error e => (none, some e)
  | .ok req => c.Do req mw

/-- Go `(c *Client) Put(url, payload, mw...)`. -/
def Client.Put {Ctx Body Resp : Type}
    (c : Client (Request Ctx Body) Resp String) (url : String)
    (payload : Option Body) (mw : List (MW (Request Ctx Body) String)) :
    Option Resp × Option String :=
  match @mkRequest Ctx Body none .put url payload with
  | .error e => (none, some e)
  | .ok req => c.Do req mw

/-- Go `(c *Client) PutCtx(ctx, url, payload, mw...)`. -/
def Client.PutCtx {Ctx Body Resp : Type}
    (c : Client (Request Ctx Body) Resp String) (ctx : Ctx) (url : String)
    (payload : Option Body) (mw : List (MW (Request Ctx Body) String)) :
    Option Resp × Option String :=
  match mkRequest (some ctx) .put url payload with
  | .error e => (none, some e)
  | .ok req => c.Do req mw

/-- Go `(c *Client) Delete(url, mw...)`. -/
def Client.Delete {Ctx Body Resp : Type}
    (c : Client (Request Ctx Body) Resp String) (url : String)
    (mw : List (MW (Request Ctx Body) String)) :
    Option Resp × Option String :=
  match @mkRequest Ctx Body none .delete url none with
  | .error e => (none, some e)
  | .ok req => c.Do req mw

/-- Go `(c *Client) DeleteCtx(ctx, url, mw...)`. -/
def Client.DeleteCtx {Ctx Body Resp : Type}
    (c : Client (Request Ctx Body) Resp String) (ctx : Ctx) (url : String)
    (mw : List (MW (Request Ctx Body) String)) :
    Option Resp × Option String :=
  match @mkRequest Ctx Body (some ctx) .delete url none with
  | .error e => (none, some e)
  | .ok req => c.Do req mw

/-! ### JSON decode helper

`DecodeJSON` is a thin wrapper over `encoding/json`'s streaming decoder
(Go standard library, not part of this repository).  The decoder is
modelled from the spec at the spec's own example target shape `{A int}`:
a little JSON reader for that shape, with the spec's three failure modes
(malformed JSON, body already consumed, I/O error while reading), on all
of which the decoder reports an error without touching the target. -/

/-- The readable state of a response body as `DecodeJSON` finds it:
bytes still to be read, already consumed (the decoder hits EOF at once),
or a stream that fails while being read. -/
inductive BodyState
  | data (s : String)
  | consumed
  | ioError
deriving DecidableEq

/-- Go `*http.Response` to the extent `DecodeJSON` uses one: only the
body is read. -/
structure Response where
  body : BodyState

/-- The spec's example decode target `{A int}`;  the Go zero value of
the shape is `{A := 0}`. -/
structure ShapeA where
  A : Int
deriving DecidableEq

/-- An opening brace character (ASCII 123). -/
def lbrace : Char := Char.ofNat 123

/-- A closing brace character (ASCII 125). -/
def rbrace : Char := Char.ofNat 125

/-- Drop leading JSON whitespace. -/
def skipWS : List Char → List Char
  | [] => []
  | c :: rest =>
      if c = ' ' ∨ c = '\t' ∨ c = '\n' ∨ c = '\r' then skipWS rest
      else c :: rest

/-- Split a leading run of decimal digits off the input. -/
def takeDigits : List Char → List Char × List Char
  | [] => ([], [])
  | c :: rest =>
      if c.isDigit then
        let p := takeDigits rest
        (c :: p.1, p.2)
      else ([], c :: rest)

/-- The number a list of decimal digits denotes. -/
def digitsToNat (l : List Char) : Nat :=
  l.foldl (fun n c => n * 10 + (c.toNat - 48)) 0

/-- Read a JSON integer (optional minus sign, then digits) off the
input. -/
def readInt (l : List Char) : Option (Int × List Char) :=
  match l with
  | '-' :: rest =>
      let p := takeDigits rest
      if p.1 = [] then none else some (-(Int.ofNat (digitsToNat p.1)), p.2)
  | _ =>
      let p := takeDigits l
      if p.1 = [] then none else some (Int.ofNat (digitsToNat p.1), p.2)

/-- Consume one expected character. -/
def expectChar (c : Char) (l : List Char) : Option (List Char) :=
  match l with
  | x :: rest => if x = c then some rest else none
  | [] => none

/-- Modelled from the spec: parsing one JSON value of the example shape
`{A int}` — an object that is empty or binds the key `a` to an integer.
Anything else is the spec's "malformed JSON" case and yields the decode
error. -/
def parseShapeA (s : String) : Except String ShapeA :=
  match expectChar lbrace (skipWS s.data) with
  | none => .error "invalid character looking for beginning of value"
  | some l1 =>
      match skipWS l1 with
      | [] => .error "unexpected end of JSON input"
      | c :: l2 =>
          if c = rbrace then
            if skipWS l2 = [] then .ok { A := 0 }
            else .error "invalid character after top-level value"
          else
            match c :: l2 with
            | '"' :: 'a' :: '"' :: l3 =>
                match expectChar ':' (skipWS l3) with
                | none => .error "invalid character after object key"
                | some l4 =>
                    match readInt (skipWS l4) with
                    | none => .error "unexpected end of JSON input"
                    | some (n, l5) =>
                        match expectChar rbrace (skipWS l5) with
                        | none => .error "unexpected end of JSON input"
                        | some l6 =>
                            if skipWS l6 = [] then .ok { A := n }
                            else .error "invalid character after top-level value"
            | _ => .error "invalid character looking for object key"

/-- Modelled from the spec: one `json.Decoder.Decode(&v)` call of Go's
`encoding/json` on the response body, at the example shape.  On the
spec's failure modes — malformed JSON, body already consumed, I/O error
while reading — it reports the error and leaves the target variable
untouched. -/
def jsonDecode (b : BodyState) (v : ShapeA) : ShapeA × Option String :=
  match b with
  | .consumed => (v, some "EOF")
  | .ioError => (v, some "unexpected EOF")
  | .data s =>
      match parseShapeA s with
      | .error e => (v, some e)
      | .ok w => (w, none)

/-- Go `DecodeJSON[T](r)` at the example shape: declares the zero value
of the target type, decodes the body into it, and returns it together
with the decode error when there is one. -/
def DecodeJSON (r : Response) : ShapeA × Option String :=
  let zero : ShapeA := { A := 0 }
  match jsonDecode r.body zero with
  | (v, some err) => (v, some err)
  | (v, none) => (v, none)

/-! ### Concrete instances used by examples and witnesses -/

/-- A transport for examples: echoes the request number as the response. -/
def wSend : Nat → Option Nat × Option String := fun r => (some r, none)

/-- Example middleware: increments the request number. -/
def wInc : MW Nat String := fun r => (r + 1, none)

/-- Example middleware: fails with the error `boom`. -/
def wBoom : MW Nat String := fun r => (r, some "boom")

/-- Example middleware: doubles the request number. -/
def wDouble : MW Nat String := fun r => (r * 2, none)

/-- An example client whose base URL is `http://base/`. -/
def cBase : Client Unit Unit Unit := New (fun _ => (none, none)) "http://base/"

/-- An example client for the verb helpers: the transport answers `7`
and one registered middleware rewrites the URL. -/
def cVerb : Client (Request Unit Unit) Nat String :=
  { client := fun _ => (some 7, none)
    baseURL := "http://base/"
    mw := [fun r => ({ r with url := r.url ++ "!" }, none)] }

/-- An example call-scoped middleware for the verb helpers: always
fails. -/
def wReqMW : MW (Request Unit Unit) String := fun r => (r, some "callmw")

/-! ### Pipeline lemmas -/

theorem runMWs_append {Req Err : Type} (a b : List (MW Req Err)) (req : Req) :
    runMWs (a ++ b) req =
      match runMWs a req with
      | .error err => .error err
      | .ok r => runMWs b r := by
  induction a generalizing req with
  | nil => rfl
  | cons mw rest ih =>
      simp only [List.cons_append, runMWs]
      cases h : mw req with
      | mk r e =>
          cases e with
          | none => simpa using ih r
          | some err => rfl

/-- The two sequential loops of `Do` compute exactly the single
sequential pass over the concatenated middleware list, followed by the
transport. -/
theorem do_eq_concat {Req Resp Err : Type} (c : Client Req Resp Err)
    (req : Req) (rmw : List (MW Req Err)) :
    c.Do req rmw =
      match runMWs (c.mw ++ rmw) req with
      | .error err => (none, some err)
      | .ok r => c.client r := by
  unfold Client.Do
  rw [runMWs_append]
  cases runMWs c.mw req with
  | error err => rfl
  | ok r => rfl

theorem runMWs_error_of_split {Req Err : Type} (pre : List (MW Req Err))
    (m : MW Req Err) (post : List (MW Req Err)) (req r : Req) (e : Err)
    (hpre : runMWs pre req = .ok r) (hm : (m r).2 = some e) :
    runMWs (pre ++ m :: post) req = .error e := by
  rw [runMWs_append, hpre]
  simp only [runMWs]
  cases hmr : m r with
  | mk r' e' =>
      rw [hmr] at hm
      simp at hm
      subst hm
      rfl

theorem doLoopS_eq {Req Resp Err : Type} (c : Client Req Resp Err)
    (mws : List (MW Req Err)) (req : Req) :
    doLoopS c mws req = (c, runMWs mws req) := by
  induction mws generalizing req with
  | nil => rfl
  | cons mw rest ih =>
      simp only [doLoopS, runMWs]
      cases mw req with
      | mk r e =>
          cases e with
          | none => simpa using ih r
          | some err => rfl

/-! ### Claims -/

/-- Claim C1: `Do` applies every client-level middleware first, in
registration order, then every call-supplied middleware, in the order
given, never interleaved — one sequential pass over the concatenation of
the two lists, for any two lists including empty ones — and only then
passes the surviving request to the transport's send operation,
returning its result unchanged. -/
theorem c1_do_client_mw_then_call_mw_then_transport
    {Req Resp Err : Type} (c : Client Req Resp Err) (req : Req)
    (rmw : List (MW Req Err)) :
    c.Do req rmw =
      match runMWs (c.mw ++ rmw) req with
      | .error err => (none, some err)
      | .ok r => c.client r :=
  do_eq_concat c req rmw

/-- Claim C2: if the pipeline (client-level middleware followed by
call-supplied middleware) splits as `pre ++ m :: post` where `pre`
succeeds on the request and `m` fails with error `e`, then `Do` returns
exactly `(nil, e)` — the error unwrapped with a nil response — whatever
the later middleware `post` and whatever the transport, i.e. neither is
ever consulted. -/
theorem c2_middleware_error_short_circuits {Req Resp Err : Type}
    (send : Req → Option Resp × Option Err) (base : String)
    (cmw rmw pre post : List (MW Req Err)) (m : MW Req Err)
    (req r : Req) (e : Err)
    (hsplit : cmw ++ rmw = pre ++ m :: post)
    (hpre : runMWs pre req = .ok r)
    (hm : (m r).2 = some e) :
    Client.Do { client := send, baseURL := base, mw := cmw } req rmw
      = (none, some e) := by
  rw [do_eq_concat]
  simp only
  rw [hsplit, runMWs_error_of_split pre m post req r e hpre hm]

/-- Witness for claim C2: with client middleware `[wInc, wBoom]` and call
middleware `[wDouble]`, the pipeline splits after `wInc` (which maps 0
to 1), `wBoom` fails on 1 with `boom`, and `Do` returns
`(none, some "boom")`. -/
theorem c2_middleware_error_short_circuits_witness :
    (([wInc, wBoom] : List (MW Nat String)) ++ [wDouble]
        = [wInc] ++ wBoom :: [wDouble]
      ∧ runMWs [wInc] 0 = .ok 1
      ∧ (wBoom 1).2 = some "boom")
    ∧ Client.Do { client := wSend, baseURL := "b", mw := [wInc, wBoom] }
        0 [wDouble] = (none, some "boom") :=
  ⟨⟨rfl, rfl, rfl⟩,
    c2_middleware_error_short_circuits wSend "b" [wInc, wBoom] [wDouble]
      [wInc] [wDouble] wBoom 0 1 "boom" rfl rfl rfl⟩

/-- Claim C3, evaluated at the failing input: on base `http://base/` and path `/a/b` the code produces
`http:/base/a/b`, not the `http://base/a/b` the spec states —
`path.Clean`, run by `path.Join`, collapses the two slashes after the
scheme. -/
theorem c3_path_join_collapses_scheme_slashes :
    cBase.Path "/a/b" = "http:/base/a/b"
      ∧ cBase.Path "/a/b" ≠ "http://base/a/b" := by
  constructor
  · rfl
  · decide

/-- Claim C4: whenever decoding the response body fails — malformed JSON, body
already consumed, or an I/O error while reading — `DecodeJSON` returns
the zero value of the target shape together with that error, never a
partially populated value. -/
theorem c4_decode_failure_returns_zero (r : Response) (e : String)
    (h : (DecodeJSON r).2 = some e) :
    DecodeJSON r = ({ A := 0 }, some e) := by
  cases r with
  | mk b =>
      cases b with
      | data s =>
          cases hp : parseShapeA s with
          | error msg =>
              simp only [DecodeJSON, jsonDecode, hp] at h ⊢
              rw [h]
          | ok w =>
              simp only [DecodeJSON, jsonDecode, hp] at h
              exact absurd h (by simp)
      | consumed =>
          simp only [DecodeJSON, jsonDecode] at h ⊢
          rw [h]
      | ioError =>
          simp only [DecodeJSON, jsonDecode] at h ⊢
          rw [h]

/-- Witness for claim C4: the spec's malformed body (an object opener binding `a`
to nothing) decodes to the zero value `{A := 0}` plus the decode
error. -/
theorem c4_decode_failure_returns_zero_witness :
    (DecodeJSON { body := .data "\x7b\"a\":" }).2
        = some "unexpected end of JSON input"
    ∧ DecodeJSON { body := .data "\x7b\"a\":" }
        = ({ A := 0 }, some "unexpected end of JSON input") :=
  ⟨rfl,
    c4_decode_failure_returns_zero { body := .data "\x7b\"a\":" }
      "unexpected end of JSON input" rfl⟩

/-- Claim C5: when request construction fails (the URL is malformed), every
verb helper — Get/Post/Put/Delete and the Ctx variants — returns the
construction error at once with a nil response, for every client (so no
client-level middleware runs and the transport is never reached) and
every call-scoped middleware list. -/
theorem c5_construction_failure_skips_middleware {Ctx Body Resp : Type}
    (c : Client (Request Ctx Body) Resp String) (ctx : Ctx) (url : String)
    (payload : Option Body) (mws : List (MW (Request Ctx Body) String))
    (h : url.data.any (fun ch => ch.toNat < 32) = true) :
    c.Get url mws = (none, some "net/url: invalid control character in URL")
    ∧ c.GetCtx ctx url mws
        = (none, some "net/url: invalid control character in URL")
    ∧ c.Post url payload mws
        = (none, some "net/url: invalid control character in URL")
    ∧ c.PostCtx ctx url payload mws
        = (none, some "net/url: invalid control character in URL")
    ∧ c.Put url payload mws
        = (none, some "net/url: invalid control character in URL")
    ∧ c.PutCtx ctx url payload mws
        = (none, some "net/url: invalid control character in URL")
    ∧ c.Delete url mws
        = (none, some "net/url: invalid control character in URL")
    ∧ c.DeleteCtx ctx url mws
        = (none, some "net/url: invalid control character in URL") := by
  simp only [Client.Get, Client.GetCtx, Client.Post, Client.PostCtx,
    Client.Put, Client.PutCtx, Client.Delete, Client.DeleteCtx,
    mkRequest, h, if_true, and_self]

/-- Witness for claim C5: the URL consisting of one newline (a control character)
makes all eight helpers return the construction error, on a client whose
registered middleware and transport would otherwise be visible in the
answer. -/
theorem c5_construction_failure_skips_middleware_witness :
    ("\n".data.any (fun ch => ch.toNat < 32) = true)
    ∧ (cVerb.Get "\n" [wReqMW]
          = (none, some "net/url: invalid control character in URL")
      ∧ cVerb.GetCtx () "\n" [wReqMW]
          = (none, some "net/url: invalid control character in URL")
      ∧ cVerb.Post "\n" none [wReqMW]
          = (none, some "net/url: invalid control character in URL")
      ∧ cVerb.PostCtx () "\n" none [wReqMW]
          = (none, some "net/url: invalid control character in URL")
      ∧ cVerb.Put "\n" none [wReqMW]
          = (none, some "net/url: invalid control character in URL")
      ∧ cVerb.PutCtx () "\n" none [wReqMW]
          = (none, some "net/url: invalid control character in URL")
      ∧ cVerb.Delete "\n" [wReqMW]
          = (none, some "net/url: invalid control character in URL")
      ∧ cVerb.DeleteCtx () "\n" [wReqMW]
          = (none, some "net/url: invalid control character in URL")) :=
  ⟨by decide,
    c5_construction_failure_skips_middleware cVerb () "\n" none [wReqMW]
      (by decide)⟩

/-- Claim C6: a path beginning with the HTTP scheme characters `http` is
returned by `Path` unchanged, and the base URL is not consulted (the
answer is the path itself for every client). -/
theorem c6_absolute_url_unchanged {Req Resp Err : Type}
    (c : Client Req Resp Err) (p : String)
    (h : strHasPre p "http" = true) :
    c.Path p = p := by
  unfold Client.Path
  rw [if_pos h]

/-- Witness for claim C6: `Path("http://x/y")` on base `http://base/` is
`http://x/y`. -/
theorem c6_absolute_url_unchanged_witness :
    strHasPre "http://x/y" "http" = true
      ∧ cBase.Path "http://x/y" = "http://x/y" :=
  ⟨rfl, c6_absolute_url_unchanged cBase "http://x/y" rfl⟩

/-- Claim C7: for every base URL, `Path` of the empty path is the base with
its trailing slashes trimmed and nothing else appended: the base equals
the result followed by a run of slashes, the result itself does not end
in a slash, and in particular base `http://base/` yields
`http://base`. -/
theorem c7_empty_path_returns_trimmed_base {Req Resp Err : Type}
    (send : Req → Option Resp × Option Err) (mws : List (MW Req Err))
    (base : String) :
    (Client.mk send base mws).Path "" = trimRightSlashes base
    ∧ base.data = (trimRightSlashes base).data
        ++ List.replicate
            (base.data.reverse.takeWhile (fun ch => ch = '/')).length '/'
    ∧ (trimRightSlashes base).data.getLast? ≠ some '/'
    ∧ cBase.Path "" = "http://base" := by
  refine ⟨rfl, ?_, ?_, rfl⟩
  · conv_lhs => rw [← base.data.reverse_reverse,
      ← List.takeWhile_append_dropWhile
        (p := fun ch => ch = '/') (l := base.data.reverse)]
    rw [List.reverse_append]
    have hrep : (base.data.reverse.takeWhile (fun ch => ch = '/'))
        = List.replicate
            (base.data.reverse.takeWhile (fun ch => ch = '/')).length '/' :=
      List.eq_replicate_of_mem (fun b hb => by
        have := List.mem_takeWhile_imp hb
        simpa using this)
    rw [trimRightSlashes]
    conv_lhs => rw [hrep]
    rw [List.reverse_replicate]
  · intro hlast
    have hh := List.head?_dropWhile_not
      (fun ch => decide (ch = '/')) base.data.reverse
    rw [trimRightSlashes] at hlast
    simp only [List.getLast?_reverse] at hlast
    rw [hlast] at hh
    simp at hh

/-- Claim C8: `Pathf` is exactly positional formatting followed by `Path`, for
every formatter, client, template and argument list — no further
semantics. -/
theorem c8_pathf_formats_then_delegates {Req Resp Err A : Type}
    (sprintf : String → List A → String) (c : Client Req Resp Err)
    (url : String) (v : List A) :
    Client.Pathf sprintf c url v = c.Path (sprintf url v) := rfl

/-- Claim C9: the absolute-URL detection is a literal four-character test:
every string that begins with the characters `http` — `https://…`, but
also non-URLs such as `httpfoo` — is returned unchanged by `Path`,
whatever the base URL. -/
theorem c9_literal_http_test_returns_unchanged {Req Resp Err : Type}
    (c : Client Req Resp Err) (rest : List Char) :
    c.Path (String.mk ('h' :: 't' :: 't' :: 'p' :: rest))
      = String.mk ('h' :: 't' :: 't' :: 'p' :: rest) := by
  have h : strHasPre (String.mk ('h' :: 't' :: 't' :: 'p' :: rest))
      "http" = true := by
    simp [strHasPre, List.isPrefixOf]
  unfold Client.Path
  rw [if_pos h]

/-- Claim C10: `Do` never changes the client: the explicit-receiver-state form
of `Do` returns the receiver exactly as it was, on every call —
succeeding, middleware-failing or transport-failing — while computing
the same answer as `Do`; and `Use` changes nothing but the middleware
list, to which it appends the new entries in order. -/
theorem c10_do_is_pure_use_appends {Req Resp Err : Type}
    (c : Client Req Resp Err) (req : Req) (rmw mws : List (MW Req Err)) :
    (c.DoS req rmw).1 = c
    ∧ (c.DoS req rmw).2 = c.Do req rmw
    ∧ (c.Use mws).mw = c.mw ++ mws
    ∧ (c.Use mws).baseURL = c.baseURL
    ∧ (c.Use mws).client = c.client := by
  have hds : c.DoS req rmw = (c, c.Do req rmw) := by
    unfold Client.DoS Client.Do
    rw [doLoopS_eq]
    cases runMWs c.mw req with
    | error err => rfl
    | ok r =>
        simp only
        rw [doLoopS_eq]
        cases runMWs rmw r with
        | error err => rfl
        | ok r2 => rfl
  exact ⟨by rw [hds], by rw [hds], rfl, rfl, rfl⟩

end Httpclient
